import Mathlib

/-!
Verification of the HttpDownloader range planner and coordinator.

Shallow embedding of `src/main.go` of JackieLeee/HttpDownloader.

Conventions of the embedding:
* Go `int` fields and values are modelled as `Int`.  Go integer division
  truncates toward zero (`Int.tdiv`); Lean's `/` on `Int` is Euclidean
  division.  The two agree whenever both operands are nonnegative, which is
  the domain of every claim below (`contentLength ≥ 0`, `numRoutines ≥ 1`),
  and where it matters the theorems record this agreement explicitly.
* The external world (HTTP responses, the local file system) is passed in
  as explicit oracle values; `log.Fatalf` — which terminates the whole
  process via `os.Exit`, skipping deferred functions — is modelled as an
  `Except.error` carrying the failure point.
* Byte strings are modelled as `List Nat`.
-/

/-- The `HttpDownloader` struct (main.go lines 27-33). -/
structure HttpDownloader where
  url : String
  filename : String
  contentLength : Int
  acceptRanges : Bool
  numRoutines : Int

/-- Model of Go's `path.Base` (standard library, used by `NewDownloader` at
main.go line 38): empty path gives `"."`, trailing slashes are stripped,
the part after the last `/` is returned, and a path of only slashes gives
`"/"`. -/
def pathBase (p : String) : String :=
  if p = "" then "."
  else
    let trimmed := p.toList.reverse.dropWhile (fun c => c = '/')
    if trimmed = [] then "/"
    else ⟨(trimmed.takeWhile (fun c => c ≠ '/')).reverse⟩

/-- Function `NewDownloader` (main.go lines 36-57) after a successful HEAD request.
The HEAD response is summarised by its reported content length and the
value slice of its `Accept-Ranges` header (`resp.Header["Accept-Ranges"]`,
`[]` when the header is absent).  Line 54 sets
`acceptRanges = len(values) != 0 && values[0] == "bytes"`. -/
def NewDownloader (url : String) (numThreads : Int)
    (contentLength : Int) (acceptRangesHeader : List String) : HttpDownloader :=
  { url := url
    filename := pathBase url
    contentLength := contentLength
    numRoutines := numThreads
    acceptRanges :=
      acceptRangesHeader.length != 0 && acceptRangesHeader.headD "" == "bytes" }

/-- Function `Split` (main.go lines 113-127): divide the file into `numRoutines`
inclusive byte ranges.  `blockSize := contentLength / numRoutines`; worker
`i` gets `[i*blockSize, (i+1)*blockSize - 1]`, except that the last worker's
end is overridden to `contentLength - 1`.  The Go `for` loop appending one
pair per `i = 0, ..., numRoutines-1` is a map over `List.range`
(`toNat` makes the loop run zero times when `numRoutines ≤ 0`, exactly as
`for i := 0; i < numRoutines; i++` would). -/
def HttpDownloader.Split (h : HttpDownloader) : List (Int × Int) :=
  let blockSize := h.contentLength / h.numRoutines
  (List.range h.numRoutines.toNat).map fun (i : Nat) =>
    let start : Int := (i : Int) * blockSize
    let stop : Int :=
      if (i : Int) = h.numRoutines - 1 then h.contentLength - 1
      else ((i : Int) + 1) * blockSize - 1
    (start, stop)

example :
    (HttpDownloader.mk "u" "f" 10 true 4).Split = [(0, 1), (2, 3), (4, 5), (6, 9)] := by
  decide

example :
    (HttpDownloader.mk "u" "f" 2 true 5).Split
      = [(0, -1), (0, -1), (0, -1), (0, -1), (0, 1)] := by
  decide

example :
    (HttpDownloader.mk "u" "f" 900 true 3).Split = [(0, 299), (300, 599), (600, 899)] := by
  decide

/-- The strategy choice inside `Download` (main.go line 69):
`if h.acceptRanges == false` the body is fetched by one unranged GET and
written via `save2file(h.filename, 0, resp)`; otherwise the multi-range
path runs one task per element of `h.Split()`. -/
inductive DownloadPath where
  | singleStream (offset : Int)
  | multiRange (ranges : List (Int × Int))
deriving DecidableEq

/-- The branch taken by `Download` (main.go lines 69-109) as a function of
the downloader state. -/
def HttpDownloader.downloadPath (h : HttpDownloader) : DownloadPath :=
  if h.acceptRanges = false then .singleStream 0
  else .multiRange h.Split

/-- The distinct `log.Fatalf` sites on the fetch/write path
(main.go lines 133, 140, 151, 155, 161, 165).  Each terminates the whole
process via `os.Exit(1)`. -/
inductive Fatal where
  | createRequestFailed
  | requestFailed
  | openFileFailed
  | seekFailed
  | readBodyFailed
  | writeFailed
deriving DecidableEq

/-- Oracle for one HTTP response: the status code (never inspected by the
code) and the result of `ioutil.ReadAll(resp.Body)` — `none` models a body
read error. -/
structure HttpResponse where
  statusCode : Nat
  body : Option (List Nat)
deriving DecidableEq

/-- Oracle for one ranged request made by `download` (main.go lines
130-145): whether `http.NewRequest` fails, whether
`http.DefaultClient.Do` fails (transport error), and the response
otherwise. -/
structure Network where
  requestErr : Bool
  doErr : Bool
  resp : HttpResponse
deriving DecidableEq

/-- Oracle for the local file operations done by `save2file`
(main.go lines 148-167): the current file contents and whether
`os.OpenFile`, `Seek`, or `Write` fails. -/
structure FileSystem where
  file : List Nat
  openErr : Bool
  seekErr : Bool
  writeErr : Bool
deriving DecidableEq

/-- Effect of `Seek(offset, 0)` followed by `Write(content)` on a file
opened `O_WRONLY` without truncation: bytes `[offset, offset+len(content))`
are overwritten, everything outside is untouched, and seeking past the end
zero-fills the gap. -/
def writeAt (file : List Nat) (offset : Nat) (content : List Nat) : List Nat :=
  file.take offset ++ List.replicate (offset - file.length) 0
    ++ content ++ file.drop (offset + content.length)

/-- Function `save2file` (main.go lines 148-167): open the file, seek to `offset`,
read the whole response body, write it.  Every failure calls `log.Fatalf`,
modelled as `Except.error`; on success the new file contents are
returned. -/
def save2file (fs : FileSystem) (offset : Nat) (resp : HttpResponse) :
    Except Fatal (List Nat) :=
  if fs.openErr then .error .openFileFailed
  else if fs.seekErr then .error .seekFailed
  else
    match resp.body with
    | none => .error .readBodyFailed
    | some content =>
      if fs.writeErr then .error .writeFailed
      else .ok (writeAt fs.file offset content)

/-- Function `download` (main.go lines 130-145): build a GET request with a
`Range: bytes=start-stop` header, execute it, then `save2file` at offset
`start`.  The response status code is never inspected.  `stop` only shapes
the Range header, which the `Network` oracle already accounts for. -/
def HttpDownloader.download (h : HttpDownloader) (net : Network)
    (fs : FileSystem) (start stop : Int) : Except Fatal (List Nat) :=
  if net.requestErr then .error .createRequestFailed
  else if net.doErr then .error .requestFailed
  else save2file fs start.toNat net.resp

/-- Number of completion signals one multi-range task sends (main.go lines
83-89).  The goroutine body is
`defer func() { success <- true; wg.Done() }(); h.download(start, end)`.
A deferred function runs only when the goroutine returns normally; every
failure inside `download`/`save2file` calls `log.Fatalf`, i.e. `os.Exit`,
which terminates the process without running deferred functions, so a
failed task sends no signal. -/
def taskSignalCount (h : HttpDownloader) (net : Network)
    (fs : FileSystem) (start stop : Int) : Nat :=
  match h.download net fs start stop with
  | .ok _ => 1
  | .error _ => 0

/-- Progress percentage after `completed` of `totalTasks` signals
(main.go line 98): `float64(countSuccess) / float64(h.numRoutines) * 100`.
The `float64` arithmetic is modelled over `ℚ`. -/
def progressPercentage (totalTasks completed : Nat) : ℚ :=
  (completed : ℚ) / (totalTasks : ℚ) * 100

/-- The rendered bar for percentage `p` (main.go line 100):
`strings.Repeat("=", int(p)) + strings.Repeat(" ", 100-int(p))`.
Go's `int(p)` truncates toward zero, which for `p ≥ 0` is `⌊p⌋`. -/
def progressBar (p : ℚ) : List Char :=
  List.replicate (Int.toNat ⌊p⌋) '=' ++ List.replicate (100 - Int.toNat ⌊p⌋) ' '

/-- The full sequence of `(percentage, bar)` snapshots printed by the
progress goroutine (main.go lines 93-104) when it receives `signals`
completion signals out of `totalTasks` tasks: the initial `0.0` line with a
blank bar (line 94), one line per received signal (lines 96-102), and the
final `100.0` line with a full bar after the channel closes (line 103). -/
def progressSnapshots (totalTasks signals : Nat) : List (ℚ × List Char) :=
  (0, List.replicate 100 ' ')
    :: ((List.range signals).map fun k =>
        let p := progressPercentage totalTasks (k + 1)
        (p, progressBar p))
    ++ [(100, List.replicate 100 '=')]

example : progressSnapshots 2 2 =
    [(0, List.replicate 100 ' '),
     (50, progressBar 50),
     (100, progressBar 100),
     (100, List.replicate 100 '=')] := by
  norm_num [progressSnapshots, progressPercentage, List.range_succ]

/-! Basic facts about `Split`. -/

lemma HttpDownloader.split_length (h : HttpDownloader) :
    h.Split.length = h.numRoutines.toNat := by
  simp only [HttpDownloader.Split, List.length_map, List.length_range]

lemma HttpDownloader.split_getElem (h : HttpDownloader) (i : Nat)
    (hi : i < h.Split.length) :
    h.Split[i] =
      ((i : Int) * (h.contentLength / h.numRoutines),
        if (i : Int) = h.numRoutines - 1 then h.contentLength - 1
        else ((i : Int) + 1) * (h.contentLength / h.numRoutines) - 1) := by
  simp only [HttpDownloader.Split, List.getElem_map, List.getElem_range]

lemma HttpDownloader.mem_split (h : HttpDownloader) (p : Int × Int) :
    p ∈ h.Split ↔ ∃ i : Nat, i < h.numRoutines.toNat ∧
      p = ((i : Int) * (h.contentLength / h.numRoutines),
        if (i : Int) = h.numRoutines - 1 then h.contentLength - 1
        else ((i : Int) + 1) * (h.contentLength / h.numRoutines) - 1) := by
  simp only [HttpDownloader.Split, List.mem_map, List.mem_range]
  constructor
  · rintro ⟨i, hi, rfl⟩
    exact ⟨i, hi, rfl⟩
  · rintro ⟨i, hi, rfl⟩
    exact ⟨i, hi, rfl⟩

lemma blockSize_nonneg {L n : Int} (hL : 0 ≤ L) (hn : 1 ≤ n) : 0 ≤ L / n :=
  Int.ediv_nonneg hL (by omega)

lemma mul_blockSize_le {L n : Int} (hn : 1 ≤ n) : n * (L / n) ≤ L := by
  have h1 := Int.ediv_add_emod L n
  have h2 : 0 ≤ L % n := Int.emod_nonneg L (by omega)
  linarith

lemma HttpDownloader.split_disjoint_aux (h : HttpDownloader)
    (hL : 0 ≤ h.contentLength) (hn : 1 ≤ h.numRoutines)
    (i j : Nat) (hi : i < h.Split.length) (hj : j < h.Split.length) (hij : i < j)
    (x : Int)
    (hxi : (h.Split[i]).1 ≤ x ∧ x ≤ (h.Split[i]).2)
    (hxj : (h.Split[j]).1 ≤ x ∧ x ≤ (h.Split[j]).2) : False := by
  have hb : 0 ≤ h.contentLength / h.numRoutines := blockSize_nonneg hL hn
  have hlen := h.split_length
  rw [h.split_getElem i hi] at hxi
  rw [h.split_getElem j hj] at hxj
  have hine : (i : Int) ≠ h.numRoutines - 1 := by omega
  rw [if_neg hine] at hxi
  dsimp only at hxi hxj
  have hmul : ((i : Int) + 1) * (h.contentLength / h.numRoutines)
      ≤ (j : Int) * (h.contentLength / h.numRoutines) := by
    apply mul_le_mul_of_nonneg_right _ hb
    exact_mod_cast hij
  linarith [hxi.2, hxj.1]

/-- C1: for every `contentLength ≥ 0` and `numRoutines ≥ 1`, the ranges
returned by `Split` are contiguous (each range's start equals the previous
range's end plus one), ordered by start offset, pairwise disjoint, and
their union is exactly the interval `[0, contentLength - 1]`. -/
theorem HttpDownloader.split_partition (h : HttpDownloader)
    (hL : 0 ≤ h.contentLength) (hn : 1 ≤ h.numRoutines) :
    (∀ (i : Nat) (hi : i + 1 < h.Split.length),
        (h.Split[i + 1]).1 = (h.Split[i]).2 + 1)
    ∧ (∀ (i j : Nat) (hi : i < h.Split.length) (hj : j < h.Split.length),
        i ≤ j → (h.Split[i]).1 ≤ (h.Split[j]).1)
    ∧ (∀ (i j : Nat) (hi : i < h.Split.length) (hj : j < h.Split.length),
        i ≠ j → ∀ x : Int,
          ¬((h.Split[i]).1 ≤ x ∧ x ≤ (h.Split[i]).2
            ∧ (h.Split[j]).1 ≤ x ∧ x ≤ (h.Split[j]).2))
    ∧ (∀ x : Int, (∃ p ∈ h.Split, p.1 ≤ x ∧ x ≤ p.2)
        ↔ 0 ≤ x ∧ x ≤ h.contentLength - 1) := by
  have hlen := h.split_length
  have hb : 0 ≤ h.contentLength / h.numRoutines := blockSize_nonneg hL hn
  have hnb : h.numRoutines * (h.contentLength / h.numRoutines) ≤ h.contentLength :=
    mul_blockSize_le hn
  refine ⟨?_, ?_, ?_, ?_⟩
  · intro i hi
    rw [h.split_getElem (i + 1) hi, h.split_getElem i (by omega)]
    have hine : (i : Int) ≠ h.numRoutines - 1 := by omega
    rw [if_neg hine]
    dsimp only
    push_cast
    ring
  · intro i j hi hj hij
    rw [h.split_getElem i hi, h.split_getElem j hj]
    dsimp only
    apply mul_le_mul_of_nonneg_right _ hb
    exact_mod_cast hij
  · intro i j hi hj hij x hx
    rcases Nat.lt_or_ge i j with hlt | hge
    · exact h.split_disjoint_aux hL hn i j hi hj hlt x ⟨hx.1, hx.2.1⟩
        ⟨hx.2.2.1, hx.2.2.2⟩
    · have hlt : j < i := by omega
      exact h.split_disjoint_aux hL hn j i hj hi hlt x ⟨hx.2.2.1, hx.2.2.2⟩
        ⟨hx.1, hx.2.1⟩
  · intro x
    constructor
    · rintro ⟨p, hp, hpx1, hpx2⟩
      rw [h.mem_split] at hp
      obtain ⟨i, hin, rfl⟩ := hp
      dsimp only at hpx1 hpx2
      constructor
      · have hs : (0 : Int) ≤ (i : Int) * (h.contentLength / h.numRoutines) :=
          mul_nonneg (Int.natCast_nonneg i) hb
        linarith
      · by_cases hilast : (i : Int) = h.numRoutines - 1
        · rw [if_pos hilast] at hpx2
          linarith
        · rw [if_neg hilast] at hpx2
          have hile : (i : Int) + 1 ≤ h.numRoutines := by omega
          have hstep : ((i : Int) + 1) * (h.contentLength / h.numRoutines)
              ≤ h.numRoutines * (h.contentLength / h.numRoutines) :=
            mul_le_mul_of_nonneg_right hile hb
          linarith
    · rintro ⟨hx0, hxL⟩
      by_cases hcase : (h.numRoutines - 1) * (h.contentLength / h.numRoutines) ≤ x
      · refine ⟨_, (h.mem_split _).mpr ⟨h.numRoutines.toNat - 1, by omega, rfl⟩, ?_, ?_⟩
        · dsimp only
          have hcast : ((h.numRoutines.toNat - 1 : Nat) : Int) = h.numRoutines - 1 := by
            omega
          rw [hcast]
          exact hcase
        · dsimp only
          have hcast : ((h.numRoutines.toNat - 1 : Nat) : Int) = h.numRoutines - 1 := by
            omega
          rw [hcast, if_pos rfl]
          exact hxL
      · push_neg at hcase
        have hbpos : 0 < h.contentLength / h.numRoutines := by
          rcases hb.lt_or_eq with hp | hp
          · exact hp
          · exfalso
            rw [← hp, mul_zero] at hcase
            linarith
        obtain ⟨q, hqdef⟩ :
            ∃ q : Int, q = x / (h.contentLength / h.numRoutines) := ⟨_, rfl⟩
        have hq0 : 0 ≤ q := by
          rw [hqdef]
          exact Int.ediv_nonneg hx0 hb
        have hqb : q * (h.contentLength / h.numRoutines) ≤ x := by
          rw [hqdef]
          exact Int.ediv_mul_le x (ne_of_gt hbpos)
        have hqlt : x < (q + 1) * (h.contentLength / h.numRoutines) := by
          rw [hqdef]
          exact Int.lt_ediv_add_one_mul_self x hbpos
        have hqn : q < h.numRoutines - 1 := by
          by_contra hcon
          push_neg at hcon
          have hstep : (h.numRoutines - 1) * (h.contentLength / h.numRoutines)
              ≤ q * (h.contentLength / h.numRoutines) :=
            mul_le_mul_of_nonneg_right hcon (le_of_lt hbpos)
          linarith
        refine ⟨_, (h.mem_split _).mpr ⟨q.toNat, by omega, rfl⟩, ?_, ?_⟩
        · dsimp only
          rw [Int.toNat_of_nonneg hq0]
          exact hqb
        · dsimp only
          rw [Int.toNat_of_nonneg hq0, if_neg (by omega)]
          linarith

/-- Closed witness instantiating `split_partition` at
`contentLength = 10`, `numRoutines = 4`. -/
theorem split_partition_witness :
    ∃ p ∈ (HttpDownloader.mk "u" "f" 10 true 4).Split, p.1 ≤ 7 ∧ 7 ≤ p.2 :=
  (((HttpDownloader.mk "u" "f" 10 true 4).split_partition (by decide)
    (by decide)).2.2.2 7).mpr (by decide)

/-- C2: for `contentLength ≥ 0` and `numRoutines ≥ 1`, `Split` computes
`blockSize = contentLength / numRoutines` with truncating integer division
(`Int.tdiv`, which is Go's `/`; on this domain it coincides with Lean's
Euclidean `/`) and returns, for worker `i`, start `i*blockSize` and end
`(i+1)*blockSize - 1`, except that the last worker's end is
`contentLength - 1`; in particular `contentLength = 10`, `numRoutines = 4`
yields `[0,1],[2,3],[4,5],[6,9]`. -/
theorem HttpDownloader.split_formula (h : HttpDownloader)
    (hL : 0 ≤ h.contentLength) (hn : 1 ≤ h.numRoutines) :
    h.contentLength / h.numRoutines = h.contentLength.tdiv h.numRoutines
    ∧ (∀ (i : Nat) (hi : i < h.Split.length),
        h.Split[i] =
          ((i : Int) * (h.contentLength.tdiv h.numRoutines),
            if (i : Int) = h.numRoutines - 1 then h.contentLength - 1
            else ((i : Int) + 1) * (h.contentLength.tdiv h.numRoutines) - 1))
    ∧ (HttpDownloader.mk "u" "f" 10 true 4).Split
        = [(0, 1), (2, 3), (4, 5), (6, 9)] := by
  have htd : h.contentLength.tdiv h.numRoutines = h.contentLength / h.numRoutines :=
    Int.tdiv_eq_ediv hL (by omega)
  refine ⟨htd.symm, ?_, by decide⟩
  intro i hi
  rw [h.split_getElem i hi, htd]

/-- Closed witness instantiating `split_formula` at
`contentLength = 10`, `numRoutines = 4`. -/
theorem split_formula_witness :
    (HttpDownloader.mk "u" "f" 10 true 4).Split = [(0, 1), (2, 3), (4, 5), (6, 9)] :=
  ((HttpDownloader.mk "u" "f" 10 true 4).split_formula (by decide) (by decide)).2.2

/-- C3: for `contentLength ≥ 0` and `numRoutines ≥ 1`, `Split` returns
exactly `numRoutines` ranges, even when `numRoutines` exceeds
`contentLength`, in which case some returned range is degenerate
(`start > end`); the worker count is never reduced. -/
theorem HttpDownloader.split_count (h : HttpDownloader)
    (hL : 0 ≤ h.contentLength) (hn : 1 ≤ h.numRoutines) :
    (h.Split.length : Int) = h.numRoutines
    ∧ (h.contentLength < h.numRoutines → ∃ p ∈ h.Split, p.2 < p.1) := by
  have hlen := h.split_length
  constructor
  · omega
  · intro hLn
    have hb0 : h.contentLength / h.numRoutines = 0 := Int.ediv_eq_zero_of_lt hL hLn
    refine ⟨_, (h.mem_split _).mpr ⟨0, by omega, rfl⟩, ?_⟩
    dsimp only
    rw [hb0]
    by_cases h1 : ((0 : Nat) : Int) = h.numRoutines - 1
    · rw [if_pos h1]
      push_cast
      omega
    · rw [if_neg h1]
      push_cast


/-- Closed witness instantiating `split_count` at
`contentLength = 2`, `numRoutines = 5` (the spec's own degenerate example). -/
theorem split_count_witness :
    ((HttpDownloader.mk "u" "f" 2 true 5).Split.length : Int) = 5
    ∧ ∃ p ∈ (HttpDownloader.mk "u" "f" 2 true 5).Split, p.2 < p.1 :=
  ⟨((HttpDownloader.mk "u" "f" 2 true 5).split_count (by decide) (by decide)).1,
   ((HttpDownloader.mk "u" "f" 2 true 5).split_count (by decide) (by decide)).2
     (by decide)⟩

/-- C4: when `numRoutines` evenly divides `contentLength`, every range
returned by `Split` has the same length, namely
`contentLength / numRoutines` (an inclusive range `[s, e]` has length
`e - s + 1`). -/
theorem HttpDownloader.split_even (h : HttpDownloader)
    (hL : 0 ≤ h.contentLength) (hn : 1 ≤ h.numRoutines)
    (hdvd : h.numRoutines ∣ h.contentLength) :
    ∀ p ∈ h.Split, p.2 - p.1 + 1 = h.contentLength / h.numRoutines := by
  intro p hp
  rw [h.mem_split] at hp
  obtain ⟨i, hin, rfl⟩ := hp
  have hnL : h.contentLength = h.numRoutines * (h.contentLength / h.numRoutines) := by
    rw [mul_comm]
    exact (Int.ediv_mul_cancel hdvd).symm
  dsimp only
  by_cases hilast : (i : Int) = h.numRoutines - 1
  · rw [if_pos hilast, hilast]
    linear_combination hnL
  · rw [if_neg hilast]
    ring

/-- Closed witness instantiating `split_even` at
`contentLength = 900`, `numRoutines = 3`, range `[0, 299]`. -/
theorem split_even_witness :
    (0, 299) ∈ (HttpDownloader.mk "u" "f" 900 true 3).Split
    ∧ ((0 : Int), (299 : Int)).2 - ((0 : Int), (299 : Int)).1 + 1 = (900 : Int) / 3 :=
  ⟨by decide,
   (HttpDownloader.mk "u" "f" 900 true 3).split_even (by decide) (by decide)
     (by norm_num) ((0 : Int), (299 : Int)) (by decide)⟩

/-- C5: `Split` is a pure, deterministic function of `contentLength`
and `numRoutines` alone: any two downloader states that agree on those two
fields (whatever their `url`, `filename`, or `acceptRanges`, and with no
other state in the model) produce the identical sequence of ranges. -/
theorem HttpDownloader.split_deterministic (h1 h2 : HttpDownloader)
    (hL : h1.contentLength = h2.contentLength)
    (hn : h1.numRoutines = h2.numRoutines) :
    h1.Split = h2.Split := by
  simp only [HttpDownloader.Split, hL, hn]

/-- Closed witness instantiating `split_deterministic` on two downloader
states differing in every field except the two planner inputs. -/
theorem split_deterministic_witness :
    (HttpDownloader.mk "http://a/x" "x" 10 true 4).Split
      = (HttpDownloader.mk "http://b/y" "y" 10 false 4).Split :=
  HttpDownloader.split_deterministic _ _ rfl rfl

/-! Progress tracker facts. -/

lemma progressPercentage_nonneg (n k : Nat) : 0 ≤ progressPercentage n k := by
  unfold progressPercentage
  positivity

lemma progressPercentage_mono (n : Nat) {i j : Nat} (hij : i ≤ j) :
    progressPercentage n i ≤ progressPercentage n j := by
  unfold progressPercentage
  gcongr

lemma progressPercentage_le_100 (n k : Nat) (hn : 1 ≤ n) (hk : k ≤ n) :
    progressPercentage n k ≤ 100 := by
  have hn0 : (0 : ℚ) < (n : ℚ) := by exact_mod_cast hn
  unfold progressPercentage
  have h1 : (k : ℚ) / (n : ℚ) ≤ 1 := (div_le_one hn0).mpr (by exact_mod_cast hk)
  linarith

lemma progressPercentage_total (n : Nat) (hn : 1 ≤ n) :
    progressPercentage n n = 100 := by
  have hn0 : (n : ℚ) ≠ 0 := Nat.cast_ne_zero.mpr (by omega)
  unfold progressPercentage
  rw [div_self hn0, one_mul]

lemma progressBar_spec (p : ℚ) (h0 : 0 ≤ p) (h100 : p ≤ 100) :
    (progressBar p).length = 100 ∧ (progressBar p).count '=' = (⌊p⌋).toNat := by
  have hf0 : 0 ≤ ⌊p⌋ := Int.floor_nonneg.mpr h0
  have hf100 : ⌊p⌋ ≤ 100 := by
    have h := Int.floor_le_floor h100
    norm_num at h
    exact h
  constructor
  · simp only [progressBar, List.length_append, List.length_replicate]
    omega
  · simp [progressBar, List.count_append, List.count_replicate]

/-- C6: for `totalTasks = numRoutines = n ≥ 1`, with all `n` completion
signals arriving (in any order — signals carry no payload, so order cannot
affect the snapshots), the progress goroutine emits snapshots whose
percentages are monotonically non-decreasing; the snapshot after the
`(k+1)`-st signal carries percentage `(k+1)/n * 100`; the sequence ends
exactly at `100` after exactly `n` signals; and every rendered bar is a
fixed-width 100-column bar with `⌊percentage⌋` columns filled. -/
theorem progress_tracker_spec (n : Nat) (hn : 1 ≤ n) :
    ((progressSnapshots n n).map Prod.fst).Pairwise (· ≤ ·)
    ∧ (∀ k : Nat, k < n →
        (progressSnapshots n n)[k + 1]? =
          some (progressPercentage n (k + 1),
            progressBar (progressPercentage n (k + 1))))
    ∧ progressPercentage n n = 100
    ∧ (progressSnapshots n n).getLast? = some (100, List.replicate 100 '=')
    ∧ (progressSnapshots n n).length = n + 2
    ∧ (∀ s ∈ progressSnapshots n n,
        s.2.length = 100 ∧ s.2.count '=' = (⌊s.1⌋).toNat) := by
  refine ⟨?_, ?_, progressPercentage_total n hn, ?_, ?_, ?_⟩
  · simp only [progressSnapshots, List.map_append, List.map_cons, List.map_map]
    rw [List.pairwise_append]
    refine ⟨?_, by simp, ?_⟩
    · refine List.Pairwise.cons ?_ ?_
      · intro b hb
        simp only [List.mem_map, List.mem_range] at hb
        obtain ⟨k, hk, rfl⟩ := hb
        exact progressPercentage_nonneg n (k + 1)
      · rw [List.pairwise_map]
        refine (List.pairwise_lt_range n).imp ?_
        intro a b hab
        exact progressPercentage_mono n (by omega)
    · intro a ha b hb
      simp only [List.map_nil, List.mem_singleton] at hb
      subst hb
      rcases List.mem_cons.mp ha with rfl | ha
      · norm_num
      · simp only [List.mem_map, List.mem_range] at ha
        obtain ⟨k, hk, rfl⟩ := ha
        exact progressPercentage_le_100 n (k + 1) hn (by omega)
  · intro k hk
    simp only [progressSnapshots]
    rw [List.getElem?_append,
      if_pos (by simp only [List.length_cons, List.length_map, List.length_range]; omega),
      List.getElem?_cons_succ]
    simp [List.getElem?_map, List.getElem?_range, hk]
  · simp only [progressSnapshots]
    rw [List.getLast?_concat]
  · simp [progressSnapshots]
  · intro s hs
    simp only [progressSnapshots, List.mem_append, List.mem_cons, List.mem_map,
      List.mem_range, List.not_mem_nil, or_false] at hs
    rcases hs with (rfl | ⟨k, hk, rfl⟩) | rfl
    · constructor
      · simp
      · simp [List.count_replicate]
    · exact progressBar_spec _ (progressPercentage_nonneg n (k + 1))
        (progressPercentage_le_100 n (k + 1) hn (by omega))
    · constructor
      · simp
      · norm_num [List.count_replicate]
        decide

/-- Closed witness instantiating `progress_tracker_spec` at `n = 4`. -/
theorem progress_tracker_witness :
    (progressSnapshots 4 4).length = 4 + 2 :=
  (progress_tracker_spec 4 (by decide)).2.2.2.2.1

/-- C7, counterexample: the claim that every launched fetch task sends
exactly one completion signal regardless of outcome is false.  A task whose
transport request fails sends zero signals: `log.Fatalf` exits the process
before the deferred `success <- true` runs. -/
theorem task_signal_cex :
    taskSignalCount (HttpDownloader.mk "u" "f" 4 true 2)
        (Network.mk false true (HttpResponse.mk 200 (some [1, 2])))
        (FileSystem.mk [] false false false) 0 1 = 0
    ∧ ¬(∀ (h : HttpDownloader) (net : Network) (fs : FileSystem) (s e : Int),
        taskSignalCount h net fs s e = 1) := by
  refine ⟨rfl, fun hall => ?_⟩
  exact absurd
    (hall (HttpDownloader.mk "u" "f" 4 true 2)
      (Network.mk false true (HttpResponse.mk 200 (some [1, 2])))
      (FileSystem.mk [] false false false) 0 1)
    (by decide)

/-- C7, amended: a launched fetch task sends exactly one completion
signal when its fetch and write both succeed, and zero signals otherwise —
on any failure `log.Fatal` terminates the whole process before the deferred
send runs, so the progress count does not reach the total when a task
fails. -/
theorem task_signal_amended (h : HttpDownloader) (net : Network)
    (fs : FileSystem) (s e : Int) :
    taskSignalCount h net fs s e =
      if (h.download net fs s e).isOk then 1 else 0 := by
  unfold taskSignalCount Except.isOk
  cases h.download net fs s e <;> rfl

/-- C8: a resource whose probe does not advertise byte-range support
takes the single-stream path regardless of the requested worker count: one
unranged request whose whole body is written at offset 0 of the destination
file, so the resulting file starts with exactly the body. -/
theorem single_stream_path (h : HttpDownloader) (hr : h.acceptRanges = false)
    (n : Int) (fs : FileSystem) (resp : HttpResponse) (content : List Nat)
    (hbody : resp.body = some content)
    (ho : fs.openErr = false) (hs : fs.seekErr = false) (hw : fs.writeErr = false) :
    ({ h with numRoutines := n } : HttpDownloader).downloadPath
        = .singleStream 0
    ∧ save2file fs 0 resp = .ok (writeAt fs.file 0 content)
    ∧ (writeAt fs.file 0 content).take content.length = content := by
  refine ⟨?_, ?_, ?_⟩
  · simp [HttpDownloader.downloadPath, hr]
  · simp [save2file, ho, hs, hbody, hw]
  · simp only [writeAt, List.take_zero, Nat.zero_sub, List.replicate_zero,
      List.nil_append, Nat.zero_add]
    exact List.take_left content (fs.file.drop content.length)

/-- Closed witness instantiating `single_stream_path`. -/
theorem single_stream_witness :
    (HttpDownloader.mk "u" "f" 9 false 6).downloadPath = DownloadPath.singleStream 0
    ∧ save2file (FileSystem.mk [7, 7, 7, 7] false false false) 0
        (HttpResponse.mk 200 (some [1, 2, 3]))
        = .ok (writeAt [7, 7, 7, 7] 0 [1, 2, 3])
    ∧ (writeAt [7, 7, 7, 7] 0 [1, 2, 3]).take (List.length [1, 2, 3]) = [1, 2, 3] :=
  single_stream_path (HttpDownloader.mk "u" "f" 9 false 6) rfl 6
    (FileSystem.mk [7, 7, 7, 7] false false false)
    (HttpResponse.mk 200 (some [1, 2, 3])) [1, 2, 3] rfl rfl rfl rfl

/-- C9, counterexample: the claim that a non-success HTTP status code
is fatal to the process is false: `download` never inspects the status
code.  With a 404 response (and no other failure) the fetch "succeeds" and
the 404 body is written to the file. -/
theorem status_not_fatal_cex :
    (HttpDownloader.mk "u" "f" 3 true 1).download
        (Network.mk false false (HttpResponse.mk 404 (some [1, 2, 3])))
        (FileSystem.mk [] false false false) 0 2
      = .ok [1, 2, 3]
    ∧ ¬(∀ (h : HttpDownloader) (net : Network) (fs : FileSystem) (s e : Int),
        400 ≤ net.resp.statusCode → (h.download net fs s e).isOk = false) := by
  refine ⟨rfl, fun hall => ?_⟩
  exact absurd
    (hall (HttpDownloader.mk "u" "f" 3 true 1)
      (Network.mk false false (HttpResponse.mk 404 (some [1, 2, 3])))
      (FileSystem.mk [] false false false) 0 2 (by decide))
    (by decide)

/-- C9, amended: every transport-level fetch failure and every local
file open/seek/body-read/write failure aborts the entire process at its
first occurrence (`log.Fatalf`), nothing is ever retried, and the result is
independent of the HTTP status code — a non-success status is not detected
and not fatal. -/
theorem failure_fatal_no_retry (h : HttpDownloader) (net : Network)
    (fs : FileSystem) (s e : Int) :
    (net.requestErr = true → h.download net fs s e = .error .createRequestFailed)
    ∧ (net.requestErr = false → net.doErr = true →
        h.download net fs s e = .error .requestFailed)
    ∧ (net.requestErr = false → net.doErr = false → fs.openErr = true →
        h.download net fs s e = .error .openFileFailed)
    ∧ (net.requestErr = false → net.doErr = false → fs.openErr = false →
        fs.seekErr = true → h.download net fs s e = .error .seekFailed)
    ∧ (net.requestErr = false → net.doErr = false → fs.openErr = false →
        fs.seekErr = false → net.resp.body = none →
        h.download net fs s e = .error .readBodyFailed)
    ∧ (∀ content, net.requestErr = false → net.doErr = false →
        fs.openErr = false → fs.seekErr = false → net.resp.body = some content →
        fs.writeErr = true → h.download net fs s e = .error .writeFailed)
    ∧ (∀ code : Nat,
        h.download (Network.mk net.requestErr net.doErr
            (HttpResponse.mk code net.resp.body)) fs s e
          = h.download net fs s e) :=
  ⟨fun h1 => by simp [HttpDownloader.download, h1],
   fun h1 h2 => by simp [HttpDownloader.download, h1, h2],
   fun h1 h2 h3 => by simp [HttpDownloader.download, save2file, h1, h2, h3],
   fun h1 h2 h3 h4 => by simp [HttpDownloader.download, save2file, h1, h2, h3, h4],
   fun h1 h2 h3 h4 h5 => by
     simp [HttpDownloader.download, save2file, h1, h2, h3, h4, h5],
   fun content h1 h2 h3 h4 h5 h6 => by
     simp [HttpDownloader.download, save2file, h1, h2, h3, h4, h5, h6],
   fun code => rfl⟩

/-- Closed witness instantiating `failure_fatal_no_retry`: a file-open
failure aborts the run with the open-failure fatal error. -/
theorem failure_fatal_witness :
    (HttpDownloader.mk "u" "f" 3 true 1).download
        (Network.mk false false (HttpResponse.mk 200 (some [1])))
        (FileSystem.mk [] true false false) 0 2
      = .error Fatal.openFileFailed :=
  (failure_fatal_no_retry (HttpDownloader.mk "u" "f" 3 true 1)
    (Network.mk false false (HttpResponse.mk 200 (some [1])))
    (FileSystem.mk [] true false false) 0 2).2.2.1 rfl rfl rfl

/-- C10: the probe sets `acceptRanges` to `true` exactly when the HEAD
response's `Accept-Ranges` header has at least one value and its first
value is the exact string `"bytes"`; for any other first value (e.g.
`"none"`, a differently-cased string, or an absent header) the flag is
`false` and `Download` takes the single-stream path. -/
theorem accept_ranges_probe (url : String) (n len : Int) (vs : List String) :
    ((NewDownloader url n len vs).acceptRanges = true ↔ vs.head? = some "bytes")
    ∧ (vs.head? ≠ some "bytes" →
        (NewDownloader url n len vs).downloadPath = .singleStream 0) := by
  have hflag : (NewDownloader url n len vs).acceptRanges = true
      ↔ vs.head? = some "bytes" := by
    cases vs with
    | nil => simp [NewDownloader]
    | cons v t => simp [NewDownloader]
  refine ⟨hflag, fun hne => ?_⟩
  have hfalse : (NewDownloader url n len vs).acceptRanges = false := by
    cases hac : (NewDownloader url n len vs).acceptRanges
    · rfl
    · exact absurd (hflag.mp hac) hne
  simp [HttpDownloader.downloadPath, hfalse]

/-- Closed witness instantiating `accept_ranges_probe` on a header whose
first value is `"none"`. -/
theorem accept_ranges_witness :
    (NewDownloader "http://e/a" 6 100 ["none"]).acceptRanges = false
    ∧ (NewDownloader "http://e/a" 6 100 ["none"]).downloadPath
        = DownloadPath.singleStream 0 :=
  ⟨by decide, (accept_ranges_probe "http://e/a" 6 100 ["none"]).2 (by decide)⟩
